import Mathlib

/-!
Verification of the carrier delivery-assignment subsystem of the repository:
the 0/1 knapsack planner `selectOrdersForDelivery` and the surrounding
`GenerateDeliveryPlan` flow in `webapp/backend/internal/service/robot.go`,
together with the order store `webapp/backend/internal/repository/product.go`
(`GetShippingOrders`, `UpdateStatuses`).

Go machine integers are modelled as unbounded `Int`/`Nat` (no claim exercises
overflow); `weight`, `value` and the non-negative capacities are modelled as
`Nat`, matching the spec's data model ("weight positive integer, value
non-negative integer").  Negative capacities, which the Go code receives as a
plain `int`, are treated by a separate `Int`-capacity entry point that records
the runtime panic the Go code produces there.
-/

namespace RobotDelivery

/-- Embedding of the Go struct `model.Order` as used by the planner and the
order store.  `int64`/`int` identifier fields become `Int`; `weight` and
`value` become `Nat`; `CreatedAt time.Time` becomes an abstract `Int`
timestamp and `ArrivedAt sql.NullTime` becomes `Option Int`. -/
structure Order where
  orderID : Int
  userID : Int
  productID : Int
  productName : String
  shippedStatus : String
  weight : Nat
  value : Nat
  createdAt : Int
  arrivedAt : Option Int
  deriving DecidableEq, Repr

/-- Embedding of the Go struct `model.DeliveryPlan` (fields `RobotID`,
`TotalWeight`, `TotalValue`, `Orders`, as read and written by
`robot.go`). -/
structure DeliveryPlan where
  robotID : String
  totalWeight : Nat
  totalValue : Nat
  orders : List Order
  deriving DecidableEq, Repr

/-- One row update of the DP table (`robot.go` lines 89-102): from the
previous row `prev = dp[i-1]` and the order `o = orders[i-1]`, produce
`dp[i]`.  `dp[i][w]` starts as `dp[i-1][w]` and is replaced by
`dp[i-1][w-weight] + value` when `weight ≤ w` and that value is larger,
i.e. it is the maximum of the two. -/
def dpRow (o : Order) (prev : Nat → Nat) : Nat → Nat := fun w =>
  if o.weight ≤ w then max (prev w) (prev (w - o.weight) + o.value) else prev w

/-- Row `dp[i]` of the DP table, indexed by the reversed list of the first
`i` fetched orders: `dpVal (rev of first i orders) w = dp[i][w]`.  Peeling
the head of the reversed list is exactly the step from `dp[i]` back to
`dp[i-1]`, which is how the backward reconstruction loop reads the table. -/
def dpVal : List Order → Nat → Nat
  | [], _ => 0
  | o :: rest, w => dpRow o (dpVal rest) w

/-- The final DP row `dp[n]`, built exactly like the Go forward fill loop: a
left fold over the fetched orders starting from the all-zero row `dp[0]`. -/
def fillTable (orders : List Order) : Nat → Nat :=
  orders.foldl (fun prev o => dpRow o prev) (fun _ => 0)

/-- The backward reconstruction loop (`robot.go` lines 118-135), expressed on
the reversed order list: at the step whose head is `o = orders[i-1]` with
residual budget `w`, stop if `w = 0` (the loop condition is
`i > 0 && w > 0`); select `o` when `w ≥ weight` and
`dp[i-1][w-weight] + value = dp[i][w]`, subtracting the weight from the
budget.  The produced list is in reverse (selection) order, exactly as the Go
loop appends to `selectedOrders`. -/
def reconstruct : List Order → Nat → List Order
  | [], _ => []
  | o :: rest, w =>
    if w = 0 then []
    else if o.weight ≤ w ∧ dpVal rest (w - o.weight) + o.value = dpVal (o :: rest) w then
      o :: reconstruct rest (w - o.weight)
    else reconstruct rest w

/-- The output adjustment (`robot.go` lines 155-168): each selected order is
copied with `UserID`, `ProductID`, `ProductName`, `ShippedStatus` reset to
their Go zero values, while `OrderID`, `Weight`, `Value`, `CreatedAt`,
`ArrivedAt` are copied through. -/
def adjustOrder (o : Order) : Order :=
  { o with userID := 0, productID := 0, productName := "", shippedStatus := "" }

/-- Total weight of a list of orders, by summation. -/
def sumWeight (l : List Order) : Nat := (l.map Order.weight).sum

/-- Total value of a list of orders, by summation. -/
def sumValue (l : List Order) : Nat := (l.map Order.value).sum

/-- Embedding of `selectOrdersForDelivery` (`robot.go` lines 68-176) for a
non-negative capacity, with no cancellation in flight (the cancellable
variant is `selectOrdersForDeliveryCtx` below).  An empty order list returns
the empty plan before the DP table is touched; otherwise `TotalValue` is
`dp[n][capacity]`, the selection is the reversed reconstruction walk, and
`TotalWeight` is the summed weight of the selection. -/
def selectOrdersForDelivery (orders : List Order) (robotID : String)
    (robotCapacity : Nat) : DeliveryPlan :=
  if orders = [] then ⟨robotID, 0, 0, []⟩
  else
    let bestValue := fillTable orders robotCapacity
    let selectedOrders := (reconstruct orders.reverse robotCapacity).reverse
    ⟨robotID, sumWeight selectedOrders, bestValue, selectedOrders.map adjustOrder⟩

@[simp] lemma sumWeight_nil : sumWeight [] = 0 := rfl

@[simp] lemma sumWeight_cons (o : Order) (l : List Order) :
    sumWeight (o :: l) = o.weight + sumWeight l := by
  simp [sumWeight]

@[simp] lemma sumValue_nil : sumValue [] = 0 := rfl

@[simp] lemma sumValue_cons (o : Order) (l : List Order) :
    sumValue (o :: l) = o.value + sumValue l := by
  simp [sumValue]

@[simp] lemma sumWeight_reverse (l : List Order) : sumWeight l.reverse = sumWeight l := by
  simp [sumWeight, List.sum_reverse]

@[simp] lemma sumValue_reverse (l : List Order) : sumValue l.reverse = sumValue l := by
  simp [sumValue, List.sum_reverse]

/-- The reconstruction walk never spends more weight than its budget. -/
lemma reconstruct_weight_le (l : List Order) (w : Nat) :
    sumWeight (reconstruct l w) ≤ w := by
  induction l generalizing w with
  | nil => simp [reconstruct]
  | cons o rest ih =>
    by_cases h0 : w = 0
    · simp [reconstruct, h0]
    · rw [reconstruct, if_neg h0]
      by_cases hsel : o.weight ≤ w ∧ dpVal rest (w - o.weight) + o.value = dpVal (o :: rest) w
      · rw [if_pos hsel]
        have h := ih (w - o.weight)
        have how := hsel.1
        simp only [sumWeight_cons]
        omega
      · rw [if_neg hsel]
        exact ih w

/-- C3: for every list of orders with positive weights and every capacity
`≥ 0`, the plan returned by `selectOrdersForDelivery` satisfies
`TotalWeight ≤ capacity`: the reconstructed selection never exceeds the
carrier's capacity. -/
theorem selectOrders_totalWeight_le_capacity (orders : List Order) (robotID : String)
    (robotCapacity : Nat) (hw : ∀ o ∈ orders, 0 < o.weight) :
    (selectOrdersForDelivery orders robotID robotCapacity).totalWeight ≤ robotCapacity := by
  by_cases h : orders = []
  · simp [selectOrdersForDelivery, h]
  · rw [selectOrdersForDelivery, if_neg h]
    simpa [sumWeight_reverse] using reconstruct_weight_le orders.reverse robotCapacity

/-- Witness for C3 at a concrete input: one order of weight 2 and value 3,
capacity 5. -/
theorem selectOrders_totalWeight_le_capacity_witness :
    (∀ o ∈ [Order.mk 1 0 0 "" "shipping" 2 3 0 none], 0 < o.weight) ∧
      (selectOrdersForDelivery [Order.mk 1 0 0 "" "shipping" 2 3 0 none] "r1" 5).totalWeight ≤ 5 :=
  ⟨by decide, selectOrders_totalWeight_le_capacity _ _ _ (by decide)⟩

/-! ### The true optimum, and optimality of the DP table (claim C1) -/

/-- All subsets of a list of orders, each kept in the list's own order. -/
def subsetsOf : List Order → List (List Order)
  | [] => [[]]
  | o :: rest => subsetsOf rest ++ (subsetsOf rest).map (o :: ·)

/-- The true maximum, over all subsets of the input orders whose total weight
is at most the capacity, of that subset's total value.  This is the
spec-side notion the planner's `TotalValue` is compared against. -/
def bestSubsetValue (orders : List Order) (cap : Nat) : Nat :=
  (((subsetsOf orders).filter (fun s => sumWeight s ≤ cap)).map sumValue).foldr max 0

lemma nil_mem_subsetsOf (l : List Order) : [] ∈ subsetsOf l := by
  induction l with
  | nil => simp [subsetsOf]
  | cons o rest ih => simp [subsetsOf, ih]

lemma mem_subsetsOf {s l : List Order} : s ∈ subsetsOf l ↔ s.Sublist l := by
  induction l generalizing s with
  | nil => simp [subsetsOf]
  | cons o rest ih =>
    simp only [subsetsOf, List.mem_append, List.mem_map, ih]
    constructor
    · rintro (h | ⟨t, ht, rfl⟩)
      · exact h.cons o
      · exact ht.cons₂ o
    · intro h
      cases h with
      | cons _ h => exact Or.inl h
      | cons₂ _ h => exact Or.inr ⟨_, h, rfl⟩

lemma le_foldrMax {l : List Nat} {x : Nat} (h : x ∈ l) : x ≤ l.foldr max 0 := by
  induction l with
  | nil => cases h
  | cons a t ih =>
    rcases List.mem_cons.mp h with rfl | h
    · exact le_max_left _ _
    · exact le_trans (ih h) (le_max_right _ _)

lemma foldrMax_mem {l : List Nat} (h : l ≠ []) : l.foldr max 0 ∈ l := by
  induction l with
  | nil => exact absurd rfl h
  | cons a t ih =>
    by_cases ht : t = []
    · subst ht; simp
    · rcases Nat.le_total (t.foldr max 0) a with hle | hle
      · simp [List.foldr_cons, Nat.max_eq_left hle]
      · simp [List.foldr_cons, Nat.max_eq_right hle, ih ht]

lemma foldrMax_append (a b : List Nat) :
    (a ++ b).foldr max 0 = max (a.foldr max 0) (b.foldr max 0) := by
  induction a with
  | nil => simp
  | cons x t ih => simp [ih, Nat.max_assoc]

lemma foldrMax_map_add (c : Nat) {l : List Nat} (h : l ≠ []) :
    (l.map (fun x => c + x)).foldr max 0 = c + l.foldr max 0 := by
  induction l with
  | nil => exact absurd rfl h
  | cons a t ih =>
    by_cases ht : t = []
    · subst ht; simp
    · simp only [List.map_cons, List.foldr_cons, ih ht]
      omega

/-- The DP row value is exactly the best achievable subset value: `dp[i][w]`
is the maximum total value over subsets of the first `i` orders with total
weight at most `w`. -/
lemma dpVal_eq_bestSubsetValue (l : List Order) (w : Nat) :
    dpVal l w = bestSubsetValue l w := by
  induction l generalizing w with
  | nil =>
    simp [dpVal, bestSubsetValue, subsetsOf, sumWeight]
  | cons o rest ih =>
    have hsplit :
        bestSubsetValue (o :: rest) w =
          max (bestSubsetValue rest w)
            ((((subsetsOf rest).filter (fun s => sumWeight (o :: s) ≤ w)).map
              (fun s => sumValue (o :: s))).foldr max 0) := by
      simp only [bestSubsetValue, subsetsOf, List.filter_append, List.map_append,
        foldrMax_append, List.filter_map, List.map_map]
      rfl
    by_cases hw : o.weight ≤ w
    · have hcong :
          (subsetsOf rest).filter (fun s => sumWeight (o :: s) ≤ w) =
            (subsetsOf rest).filter (fun s => sumWeight s ≤ w - o.weight) := by
        apply List.filter_congr
        intro s _
        simp only [sumWeight_cons, decide_eq_decide]
        omega
      have hmapval :
          ((subsetsOf rest).filter (fun s => sumWeight s ≤ w - o.weight)).map
              (fun s => sumValue (o :: s)) =
            (((subsetsOf rest).filter (fun s => sumWeight s ≤ w - o.weight)).map
              sumValue).map (fun x => o.value + x) := by
        simp [List.map_map, Function.comp]
      have hne :
          ((subsetsOf rest).filter (fun s => sumWeight s ≤ w - o.weight)).map sumValue ≠ [] := by
        have : ([] : List Order) ∈
            (subsetsOf rest).filter (fun s => sumWeight s ≤ w - o.weight) := by
          refine List.mem_filter.mpr ⟨nil_mem_subsetsOf rest, ?_⟩
          simp [sumWeight]
        exact List.ne_nil_of_mem (List.mem_map_of_mem sumValue this)
      rw [hsplit, hcong, hmapval, foldrMax_map_add o.value hne]
      rw [dpVal, dpRow]
      rw [if_pos hw, ih w, ih (w - o.weight)]
      unfold bestSubsetValue
      omega
    · have hnone :
          (subsetsOf rest).filter (fun s => sumWeight (o :: s) ≤ w) = [] := by
        apply List.filter_eq_nil_iff.mpr
        intro s _
        simp only [sumWeight_cons, decide_eq_true_eq]
        omega
      rw [hsplit, hnone]
      simp only [List.map_nil, List.foldr_nil, Nat.max_zero]
      rw [dpVal, dpRow, if_neg hw, ih w]

lemma le_bestSubsetValue {s l : List Order} {w : Nat} (hs : s.Sublist l)
    (hw : sumWeight s ≤ w) : sumValue s ≤ bestSubsetValue l w := by
  apply le_foldrMax
  exact List.mem_map_of_mem sumValue
    (List.mem_filter.mpr ⟨mem_subsetsOf.mpr hs, by simpa using hw⟩)

lemma bestSubsetValue_achieved (l : List Order) (w : Nat) :
    ∃ s, s.Sublist l ∧ sumWeight s ≤ w ∧ bestSubsetValue l w = sumValue s := by
  have hne :
      ((subsetsOf l).filter (fun s => sumWeight s ≤ w)).map sumValue ≠ [] := by
    have : ([] : List Order) ∈ (subsetsOf l).filter (fun s => sumWeight s ≤ w) := by
      refine List.mem_filter.mpr ⟨nil_mem_subsetsOf l, ?_⟩
      simp [sumWeight]
    exact List.ne_nil_of_mem (List.mem_map_of_mem sumValue this)
  have hmem := foldrMax_mem hne
  rcases List.mem_map.mp hmem with ⟨s, hsf, hval⟩
  rcases List.mem_filter.mp hsf with ⟨hsub, hwt⟩
  exact ⟨s, mem_subsetsOf.mp hsub, by simpa using hwt, hval.symm⟩

lemma bestSubsetValue_reverse (l : List Order) (w : Nat) :
    bestSubsetValue l.reverse w = bestSubsetValue l w := by
  apply le_antisymm
  · rcases bestSubsetValue_achieved l.reverse w with ⟨s, hs, hwt, hval⟩
    rw [hval, ← sumValue_reverse]
    apply le_bestSubsetValue
    · simpa using hs.reverse
    · simpa using hwt
  · rcases bestSubsetValue_achieved l w with ⟨s, hs, hwt, hval⟩
    rw [hval, ← sumValue_reverse]
    exact le_bestSubsetValue hs.reverse (by simpa using hwt)

/-! ### The Go forward fill loop computes `dpVal` of the reversed list -/

/-- `dpVal` relative to an arbitrary base row (row `dp[0]`). -/
def dpValFrom (base : Nat → Nat) : List Order → Nat → Nat
  | [], w => base w
  | o :: rest, w => dpRow o (dpValFrom base rest) w

lemma dpRow_congr (o : Order) {p q : Nat → Nat} (h : ∀ w, p w = q w) (w : Nat) :
    dpRow o p w = dpRow o q w := by
  simp [dpRow, h]

lemma dpValFrom_congr {p q : Nat → Nat} (h : ∀ w, p w = q w) (l : List Order) (w : Nat) :
    dpValFrom p l w = dpValFrom q l w := by
  induction l generalizing w with
  | nil => exact h w
  | cons o rest ih => exact dpRow_congr o ih w

lemma dpValFrom_append (base : Nat → Nat) (l₁ l₂ : List Order) (w : Nat) :
    dpValFrom base (l₁ ++ l₂) w = dpValFrom (dpValFrom base l₂) l₁ w := by
  induction l₁ generalizing w with
  | nil => rfl
  | cons o t ih => exact dpRow_congr o ih w

lemma dpValFrom_zero (l : List Order) (w : Nat) :
    dpValFrom (fun _ => 0) l w = dpVal l w := by
  induction l generalizing w with
  | nil => rfl
  | cons o rest ih => exact dpRow_congr o ih w

lemma foldl_dpRow (l : List Order) (prev : Nat → Nat) (w : Nat) :
    (l.foldl (fun p o => dpRow o p) prev) w = dpValFrom prev l.reverse w := by
  induction l generalizing prev w with
  | nil => rfl
  | cons o t ih =>
    rw [List.foldl_cons, ih, List.reverse_cons, dpValFrom_append]
    exact dpValFrom_congr (fun w => rfl) t.reverse w

/-- The fold performed by the Go forward fill loop agrees with the
table-row reading `dpVal` on the reversed list. -/
lemma fillTable_eq (orders : List Order) (w : Nat) :
    fillTable orders w = dpVal orders.reverse w := by
  rw [fillTable, foldl_dpRow]
  exact (dpValFrom_zero orders.reverse w)

/-- C1: for every list of orders with positive weights and unique ids and
every capacity `≥ 0`, the plan returned by `selectOrdersForDelivery` has
`TotalValue` equal to the maximum, over all subsets of the input orders
whose total weight is at most the capacity, of that subset's total
value. -/
theorem selectOrders_totalValue_optimal (orders : List Order) (robotID : String)
    (robotCapacity : Nat) (hw : ∀ o ∈ orders, 0 < o.weight)
    (hid : (orders.map Order.orderID).Nodup) :
    (selectOrdersForDelivery orders robotID robotCapacity).totalValue =
      bestSubsetValue orders robotCapacity := by
  by_cases h : orders = []
  · subst h
    simp [selectOrdersForDelivery, bestSubsetValue, subsetsOf, sumWeight]
  · rw [selectOrdersForDelivery, if_neg h]
    show fillTable orders robotCapacity = bestSubsetValue orders robotCapacity
    rw [fillTable_eq, dpVal_eq_bestSubsetValue, bestSubsetValue_reverse]

/-- Witness for C1 at a concrete input: the spec's Example 1, four orders of
weights 2,3,4,5 and values 3,4,5,6 with capacity 5; the optimum is 7. -/
theorem selectOrders_totalValue_optimal_witness :
    (∀ o ∈ [Order.mk 1 0 0 "" "" 2 3 0 none, Order.mk 2 0 0 "" "" 3 4 0 none,
        Order.mk 3 0 0 "" "" 4 5 0 none, Order.mk 4 0 0 "" "" 5 6 0 none], 0 < o.weight) ∧
      (([Order.mk 1 0 0 "" "" 2 3 0 none, Order.mk 2 0 0 "" "" 3 4 0 none,
        Order.mk 3 0 0 "" "" 4 5 0 none,
        Order.mk 4 0 0 "" "" 5 6 0 none].map Order.orderID).Nodup) ∧
      (selectOrdersForDelivery
        [Order.mk 1 0 0 "" "" 2 3 0 none, Order.mk 2 0 0 "" "" 3 4 0 none,
          Order.mk 3 0 0 "" "" 4 5 0 none, Order.mk 4 0 0 "" "" 5 6 0 none] "r1" 5).totalValue =
        bestSubsetValue
          [Order.mk 1 0 0 "" "" 2 3 0 none, Order.mk 2 0 0 "" "" 3 4 0 none,
            Order.mk 3 0 0 "" "" 4 5 0 none, Order.mk 4 0 0 "" "" 5 6 0 none] 5 :=
  ⟨by decide, by decide, selectOrders_totalValue_optimal _ _ _ (by decide) (by decide)⟩

/-! ### Reconstruction walk: sublist, achieved value, spec refinement
(claims C4, C7, C8) -/

/-- With positive weights nothing fits in budget `0`, so `dp[i][0] = 0`. -/
lemma dpVal_zero_of_pos {l : List Order} (hw : ∀ o ∈ l, 0 < o.weight) :
    dpVal l 0 = 0 := by
  induction l with
  | nil => rfl
  | cons o rest ih =>
    have h1 : ¬ o.weight ≤ 0 := by
      have := hw o (List.mem_cons_self o rest)
      omega
    rw [dpVal, dpRow, if_neg h1]
    exact ih (fun x hx => hw x (List.mem_cons_of_mem o hx))

/-- The reconstruction walk returns a sublist (an in-order selection) of the
list it walks. -/
lemma reconstruct_sublist (l : List Order) (w : Nat) : (reconstruct l w).Sublist l := by
  induction l generalizing w with
  | nil => simp [reconstruct]
  | cons o rest ih =>
    by_cases h0 : w = 0
    · simp [reconstruct, h0]
    · rw [reconstruct, if_neg h0]
      by_cases hsel : o.weight ≤ w ∧ dpVal rest (w - o.weight) + o.value = dpVal (o :: rest) w
      · rw [if_pos hsel]
        exact (ih (w - o.weight)).cons₂ o
      · rw [if_neg hsel]
        exact (ih w).cons o

/-- With positive weights the reconstruction walk achieves exactly the DP
optimum: the summed value of the walked selection equals `dp[i][w]`. -/
lemma reconstruct_sumValue {l : List Order} (hw : ∀ o ∈ l, 0 < o.weight) (w : Nat) :
    sumValue (reconstruct l w) = dpVal l w := by
  induction l generalizing w with
  | nil => simp [reconstruct, dpVal]
  | cons o rest ih =>
    have hwrest : ∀ x ∈ rest, 0 < x.weight := fun x hx => hw x (List.mem_cons_of_mem o hx)
    by_cases h0 : w = 0
    · subst h0
      rw [reconstruct]
      simp only [if_pos rfl]
      rw [dpVal_zero_of_pos hw]
      rfl
    · rw [reconstruct, if_neg h0]
      by_cases hsel : o.weight ≤ w ∧ dpVal rest (w - o.weight) + o.value = dpVal (o :: rest) w
      · rw [if_pos hsel, sumValue_cons, ih hwrest]
        omega
      · rw [if_neg hsel, ih hwrest]
        by_cases hfit : o.weight ≤ w
        · have hne : ¬ dpVal rest (w - o.weight) + o.value = dpVal (o :: rest) w :=
            fun hc => hsel ⟨hfit, hc⟩
          rcases Nat.le_total (dpVal rest (w - o.weight) + o.value) (dpVal rest w) with h | h
          · rw [dpVal, dpRow, if_pos hfit, Nat.max_eq_left h]
          · exfalso
            apply hne
            rw [dpVal, dpRow, if_pos hfit, Nat.max_eq_right h]
        · rw [dpVal, dpRow, if_neg hfit]

/-- The backward reconstruction walk exactly as the spec words it: `i` from
`n` down to `1` with `w` starting at the capacity, selecting order `i` when
`w ≥ weight(i)` and `dp[i-1][w-weight(i)] + value(i) = dp[i][w]`, with no
early exit (the Go loop additionally stops as soon as `w = 0`). -/
def specWalk : List Order → Nat → List Order
  | [], _ => []
  | o :: rest, w =>
    if o.weight ≤ w ∧ dpVal rest (w - o.weight) + o.value = dpVal (o :: rest) w then
      o :: specWalk rest (w - o.weight)
    else specWalk rest w

lemma specWalk_zero_of_pos {l : List Order} (hw : ∀ o ∈ l, 0 < o.weight) :
    specWalk l 0 = [] := by
  induction l with
  | nil => rfl
  | cons o rest ih =>
    have h1 : ¬ o.weight ≤ 0 := by
      have := hw o (List.mem_cons_self o rest)
      omega
    rw [specWalk, if_neg (fun hc => h1 hc.1)]
    exact ih (fun x hx => hw x (List.mem_cons_of_mem o hx))

/-- With positive weights, the Go loop's extra `w > 0` exit never changes
the selection: the code walk equals the spec walk. -/
lemma reconstruct_eq_specWalk {l : List Order} (hw : ∀ o ∈ l, 0 < o.weight) (w : Nat) :
    reconstruct l w = specWalk l w := by
  induction l generalizing w with
  | nil => rfl
  | cons o rest ih =>
    have hwrest : ∀ x ∈ rest, 0 < x.weight := fun x hx => hw x (List.mem_cons_of_mem o hx)
    by_cases h0 : w = 0
    · subst h0
      rw [reconstruct]
      simp only [if_pos rfl]
      exact (specWalk_zero_of_pos hw).symm
    · rw [reconstruct, if_neg h0, specWalk]
      by_cases hsel : o.weight ≤ w ∧ dpVal rest (w - o.weight) + o.value = dpVal (o :: rest) w
      · rw [if_pos hsel, if_pos hsel, ih hwrest]
      · rw [if_neg hsel, if_neg hsel, ih hwrest]

@[simp] lemma adjustOrder_orderID (o : Order) : (adjustOrder o).orderID = o.orderID := rfl

@[simp] lemma adjustOrder_weight (o : Order) : (adjustOrder o).weight = o.weight := rfl

@[simp] lemma adjustOrder_value (o : Order) : (adjustOrder o).value = o.value := rfl

lemma sumWeight_map_adjust (l : List Order) : sumWeight (l.map adjustOrder) = sumWeight l := by
  simp [sumWeight, List.map_map, Function.comp_def]

lemma sumValue_map_adjust (l : List Order) : sumValue (l.map adjustOrder) = sumValue l := by
  simp [sumValue, List.map_map, Function.comp_def]

/-- C7 (amended): for orders with positive weights, both returned totals are
consistent with summation over the returned selection: `TotalWeight` is the
sum of the `Weight` fields of `plan.Orders` and `TotalValue` is the sum of
their `Value` fields. -/
theorem selectOrders_totals_consistent (orders : List Order) (robotID : String)
    (robotCapacity : Nat) (hw : ∀ o ∈ orders, 0 < o.weight) :
    (selectOrdersForDelivery orders robotID robotCapacity).totalWeight =
        sumWeight (selectOrdersForDelivery orders robotID robotCapacity).orders ∧
      (selectOrdersForDelivery orders robotID robotCapacity).totalValue =
        sumValue (selectOrdersForDelivery orders robotID robotCapacity).orders := by
  by_cases h : orders = []
  · simp [selectOrdersForDelivery, h]
  · rw [selectOrdersForDelivery, if_neg h]
    have hwrev : ∀ o ∈ orders.reverse, 0 < o.weight := by
      intro o ho
      exact hw o (List.mem_reverse.mp ho)
    constructor
    · simp [sumWeight_map_adjust]
    · show fillTable orders robotCapacity =
        sumValue (((reconstruct orders.reverse robotCapacity).reverse).map adjustOrder)
      rw [sumValue_map_adjust, sumValue_reverse, reconstruct_sumValue hwrev,
        fillTable_eq]

/-- Witness for C7 at a concrete input: two orders of weights 2 and 3,
capacity 5. -/
theorem selectOrders_totals_consistent_witness :
    (∀ o ∈ [Order.mk 1 0 0 "" "" 2 3 0 none, Order.mk 2 0 0 "" "" 3 4 0 none], 0 < o.weight) ∧
      ((selectOrdersForDelivery [Order.mk 1 0 0 "" "" 2 3 0 none,
          Order.mk 2 0 0 "" "" 3 4 0 none] "r1" 5).totalWeight =
        sumWeight (selectOrdersForDelivery [Order.mk 1 0 0 "" "" 2 3 0 none,
          Order.mk 2 0 0 "" "" 3 4 0 none] "r1" 5).orders ∧
      (selectOrdersForDelivery [Order.mk 1 0 0 "" "" 2 3 0 none,
          Order.mk 2 0 0 "" "" 3 4 0 none] "r1" 5).totalValue =
        sumValue (selectOrdersForDelivery [Order.mk 1 0 0 "" "" 2 3 0 none,
          Order.mk 2 0 0 "" "" 3 4 0 none] "r1" 5).orders) :=
  ⟨by decide, selectOrders_totals_consistent _ _ _ (by decide)⟩

/-- Counterexample to C7 as stated (without the positive-weight restriction):
a single order of weight 0 and value 5 with capacity 0 is counted by the DP
table (`TotalValue = 5`) but the backward loop exits immediately at `w = 0`,
so the returned selection is empty and its summed value is 0. -/
theorem selectOrders_totals_consistent_counterexample :
    ¬ ((selectOrdersForDelivery [Order.mk 1 0 0 "" "" 0 5 0 none] "r1" 0).totalValue =
        sumValue (selectOrdersForDelivery [Order.mk 1 0 0 "" "" 0 5 0 none] "r1" 0).orders) := by
  decide

/-- C4 (amended): with positive weights, non-negative values and unique ids,
the returned `Orders` sequence is the spec's backward walk, reversed, with
each selected order passed through the output adjustment that resets
`UserID`, `ProductID`, `ProductName`, `ShippedStatus` to zero values;
consequently its id sequence is a duplicate-free subsequence of the fetched
ids in ascending fetch order. -/
theorem selectOrders_eq_specWalk (orders : List Order) (robotID : String)
    (robotCapacity : Nat) (hw : ∀ o ∈ orders, 0 < o.weight)
    (hid : (orders.map Order.orderID).Nodup) :
    (selectOrdersForDelivery orders robotID robotCapacity).orders =
        ((specWalk orders.reverse robotCapacity).reverse).map adjustOrder ∧
      ((selectOrdersForDelivery orders robotID robotCapacity).orders.map
        Order.orderID).Sublist (orders.map Order.orderID) ∧
      ((selectOrdersForDelivery orders robotID robotCapacity).orders.map
        Order.orderID).Nodup := by
  have hwrev : ∀ o ∈ orders.reverse, 0 < o.weight := by
    intro o ho
    exact hw o (List.mem_reverse.mp ho)
  by_cases h : orders = []
  · subst h
    refine ⟨rfl, ?_, ?_⟩ <;> simp [selectOrdersForDelivery]
  · rw [selectOrdersForDelivery, if_neg h]
    refine ⟨?_, ?_, ?_⟩
    · show ((reconstruct orders.reverse robotCapacity).reverse).map adjustOrder =
        ((specWalk orders.reverse robotCapacity).reverse).map adjustOrder
      rw [reconstruct_eq_specWalk hwrev]
    · show (((reconstruct orders.reverse robotCapacity).reverse).map adjustOrder).map
          Order.orderID |>.Sublist (orders.map Order.orderID)
      have h1 : (((reconstruct orders.reverse robotCapacity).reverse).map adjustOrder).map
          Order.orderID =
          (((reconstruct orders.reverse robotCapacity).map Order.orderID).reverse) := by
        simp [List.map_map, Function.comp_def]
      rw [h1]
      have h2 : ((reconstruct orders.reverse robotCapacity).map Order.orderID).Sublist
          ((orders.map Order.orderID).reverse) := by
        have := (reconstruct_sublist orders.reverse robotCapacity).map Order.orderID
        simpa [List.map_reverse] using this
      simpa using h2.reverse
    · show (((reconstruct orders.reverse robotCapacity).reverse).map adjustOrder).map
          Order.orderID |>.Nodup
      have h1 : (((reconstruct orders.reverse robotCapacity).reverse).map adjustOrder).map
          Order.orderID =
          (((reconstruct orders.reverse robotCapacity).map Order.orderID).reverse) := by
        simp [List.map_map, Function.comp_def]
      rw [h1]
      rw [List.nodup_reverse]
      have h2 : ((reconstruct orders.reverse robotCapacity).map Order.orderID).Sublist
          ((orders.map Order.orderID).reverse) := by
        have := (reconstruct_sublist orders.reverse robotCapacity).map Order.orderID
        simpa [List.map_reverse] using this
      exact h2.nodup (by simpa using hid)

/-- Witness for C4 at a concrete input: the spec's Example 1 order set. -/
theorem selectOrders_eq_specWalk_witness :
    (∀ o ∈ [Order.mk 1 0 0 "" "" 2 3 0 none, Order.mk 2 0 0 "" "" 3 4 0 none], 0 < o.weight) ∧
      (([Order.mk 1 0 0 "" "" 2 3 0 none,
          Order.mk 2 0 0 "" "" 3 4 0 none].map Order.orderID).Nodup) ∧
      ((selectOrdersForDelivery [Order.mk 1 0 0 "" "" 2 3 0 none,
          Order.mk 2 0 0 "" "" 3 4 0 none] "r1" 5).orders =
        ((specWalk [Order.mk 1 0 0 "" "" 2 3 0 none,
          Order.mk 2 0 0 "" "" 3 4 0 none].reverse 5).reverse).map adjustOrder ∧
      ((selectOrdersForDelivery [Order.mk 1 0 0 "" "" 2 3 0 none,
          Order.mk 2 0 0 "" "" 3 4 0 none] "r1" 5).orders.map Order.orderID).Sublist
        ([Order.mk 1 0 0 "" "" 2 3 0 none,
          Order.mk 2 0 0 "" "" 3 4 0 none].map Order.orderID) ∧
      ((selectOrdersForDelivery [Order.mk 1 0 0 "" "" 2 3 0 none,
          Order.mk 2 0 0 "" "" 3 4 0 none] "r1" 5).orders.map Order.orderID).Nodup) :=
  ⟨by decide, by decide, selectOrders_eq_specWalk _ _ _ (by decide) (by decide)⟩

/-- Counterexample to C4 as stated: the returned sequence is not literally
the reversed walk, because the selected order's non-planning fields are
zeroed on output — here the input order has `UserID = 7` but the returned
copy has `UserID = 0`. -/
theorem selectOrders_eq_specWalk_counterexample :
    ¬ ((selectOrdersForDelivery [Order.mk 1 7 0 "" "" 1 1 0 none] "r1" 1).orders =
        (specWalk [Order.mk 1 7 0 "" "" 1 1 0 none].reverse 1).reverse) := by
  decide

/-- C8 (amended): every order in the returned plan corresponds to a fetched
input order with the same id; `Weight`, `Value`, `CreatedAt` and `ArrivedAt`
are carried through unchanged, while `UserID`, `ProductID`, `ProductName`
and `ShippedStatus` are reset to their zero values rather than carried
through. -/
theorem selectOrders_field_carry (orders : List Order) (robotID : String)
    (robotCapacity : Nat) (o' : Order)
    (h : o' ∈ (selectOrdersForDelivery orders robotID robotCapacity).orders) :
    ∃ src ∈ orders, o'.orderID = src.orderID ∧ o'.weight = src.weight ∧
      o'.value = src.value ∧ o'.createdAt = src.createdAt ∧
      o'.arrivedAt = src.arrivedAt ∧ o'.userID = 0 ∧ o'.productID = 0 ∧
      o'.productName = "" ∧ o'.shippedStatus = "" := by
  by_cases hnil : orders = []
  · rw [selectOrdersForDelivery, if_pos hnil] at h
    cases h
  · rw [selectOrdersForDelivery, if_neg hnil] at h
    rcases List.mem_map.mp h with ⟨s, hs, rfl⟩
    have hs1 : s ∈ reconstruct orders.reverse robotCapacity := List.mem_reverse.mp hs
    have hs2 : s ∈ orders.reverse := (reconstruct_sublist _ _).mem hs1
    refine ⟨s, List.mem_reverse.mp hs2, ?_⟩
    simp [adjustOrder]

/-- Witness for C8 at a concrete input: a selected order keeps id, weight,
value and timestamps but has its other fields zeroed. -/
theorem selectOrders_field_carry_witness :
    adjustOrder (Order.mk 1 7 8 "p" "shipping" 1 1 3 (some 4)) ∈
        (selectOrdersForDelivery [Order.mk 1 7 8 "p" "shipping" 1 1 3 (some 4)] "r1" 1).orders ∧
      ∃ src ∈ [Order.mk 1 7 8 "p" "shipping" 1 1 3 (some 4)],
        (adjustOrder (Order.mk 1 7 8 "p" "shipping" 1 1 3 (some 4))).orderID = src.orderID ∧
        (adjustOrder (Order.mk 1 7 8 "p" "shipping" 1 1 3 (some 4))).weight = src.weight ∧
        (adjustOrder (Order.mk 1 7 8 "p" "shipping" 1 1 3 (some 4))).value = src.value ∧
        (adjustOrder (Order.mk 1 7 8 "p" "shipping" 1 1 3 (some 4))).createdAt = src.createdAt ∧
        (adjustOrder (Order.mk 1 7 8 "p" "shipping" 1 1 3 (some 4))).arrivedAt = src.arrivedAt ∧
        (adjustOrder (Order.mk 1 7 8 "p" "shipping" 1 1 3 (some 4))).userID = 0 ∧
        (adjustOrder (Order.mk 1 7 8 "p" "shipping" 1 1 3 (some 4))).productID = 0 ∧
        (adjustOrder (Order.mk 1 7 8 "p" "shipping" 1 1 3 (some 4))).productName = "" ∧
        (adjustOrder (Order.mk 1 7 8 "p" "shipping" 1 1 3 (some 4))).shippedStatus = "" :=
  ⟨by decide,
    selectOrders_field_carry [Order.mk 1 7 8 "p" "shipping" 1 1 3 (some 4)] "r1" 1
      (adjustOrder (Order.mk 1 7 8 "p" "shipping" 1 1 3 (some 4))) (by decide)⟩

/-- Counterexample to C8 as stated: `UserID` is not carried through — the
only fetched order has `UserID = 7`, yet every returned order has
`UserID = 0` (and the plan is non-empty). -/
theorem selectOrders_field_carry_counterexample :
    (selectOrdersForDelivery [Order.mk 1 7 8 "p" "shipping" 1 1 3 (some 4)] "r1" 1).orders ≠ [] ∧
      ¬ (∀ o' ∈ (selectOrdersForDelivery
            [Order.mk 1 7 8 "p" "shipping" 1 1 3 (some 4)] "r1" 1).orders,
          o'.userID = (Order.mk 1 7 8 "p" "shipping" 1 1 3 (some 4)).userID) := by
  constructor <;> decide

/-! ### Cancellation, the order store and the transaction flow
(claims C2, C5, C6, C9, C10) -/

/-- Errors surfaced by the embedded flows, following the spec's §7 taxonomy:
`canceled` stands for `ctx.Err()` (cancellation or deadline expiry),
`panicked` for a Go runtime panic (negative `make` length or out-of-range
slice index), and `validation` for the spec's ValidationError — which the
code never produces. -/
inductive RunError where
  | canceled
  | panicked
  | validation
  deriving DecidableEq, Repr

instance {ε α : Type} [DecidableEq ε] [DecidableEq α] : DecidableEq (Except ε α)
  | .ok a, .ok b =>
    if h : a = b then isTrue (h ▸ rfl) else isFalse fun hc => h (Except.ok.inj hc)
  | .error a, .error b =>
    if h : a = b then isTrue (h ▸ rfl) else isFalse fun hc => h (Except.error.inj hc)
  | .ok _, .error _ => isFalse fun hc => Except.noConfusion hc
  | .error _, .ok _ => isFalse fun hc => Except.noConfusion hc

/-- A cancellation signal: `oracle t` tells whether the context's `Done`
channel is already closed at the `t`-th poll performed by the request. -/
abbrev CtxOracle := Nat → Bool

/-- The zero value `model.DeliveryPlan{}`, returned next to `ctx.Err()` when
a loop aborts. -/
def zeroPlan : DeliveryPlan := ⟨"", 0, 0, []⟩

/-- The forward fill loop (`robot.go` lines 89-112) with its cancellation
check after every 1000th processed order (`if i%1000 == 0`): `i` is the
1-based index of the order being processed and `t` counts polls of the
signal.  Returns the final DP row and the next poll index, or `ctx.Err()`
when a poll finds the signal fired. -/
def fillGo (oracle : CtxOracle) : Nat → Nat → List Order → (Nat → Nat) →
    Except RunError ((Nat → Nat) × Nat)
  | t, _, [], prev => .ok (prev, t)
  | t, i, o :: rest, prev =>
    let row := fun w => dpRow o prev w
    if i % 1000 = 0 then
      if oracle t then .error .canceled
      else fillGo oracle (t + 1) (i + 1) rest row
    else fillGo oracle t (i + 1) rest row

/-- The backward reconstruction loop (`robot.go` lines 118-135) with its
per-iteration cancellation check, on the reversed order list: the loop
condition `i > 0 && w > 0` is checked first, then the signal is polled,
then the selection condition is evaluated. -/
def reconGo (oracle : CtxOracle) : Nat → List Order → Nat →
    Except RunError (List Order × Nat)
  | t, [], _ => .ok ([], t)
  | t, o :: rest, w =>
    if w = 0 then .ok ([], t)
    else if oracle t then .error .canceled
    else if o.weight ≤ w ∧ dpVal rest (w - o.weight) + o.value = dpVal (o :: rest) w then
      match reconGo oracle (t + 1) rest (w - o.weight) with
      | .error e => .error e
      | .ok (sel, t2) => .ok (o :: sel, t2)
    else reconGo oracle (t + 1) rest w

/-- Embedding of `selectOrdersForDelivery` (`robot.go` lines 68-176) with
the cancellation signal.  The Go function returns a pair of a plan and an
error; on cancellation the pair is `(model.DeliveryPlan{}, ctx.Err())`. -/
def selectOrdersForDeliveryCtx (oracle : CtxOracle) (orders : List Order)
    (robotID : String) (robotCapacity : Nat) : DeliveryPlan × Option RunError :=
  if orders = [] then (⟨robotID, 0, 0, []⟩, none)
  else
    match fillGo oracle 0 1 orders (fun _ => 0) with
    | .error e => (zeroPlan, some e)
    | .ok (row, t) =>
      let bestValue := row robotCapacity
      match reconGo oracle t orders.reverse robotCapacity with
      | .error e => (zeroPlan, some e)
      | .ok (selRev, _) =>
        let selectedOrders := selRev.reverse
        (⟨robotID, sumWeight selectedOrders, bestValue,
          selectedOrders.map adjustOrder⟩, none)

/-- Embedding of `selectOrdersForDelivery` over the raw Go `int` capacity.
With no orders the function returns the empty plan before the DP table is
allocated, for any capacity.  With at least one order and a negative
capacity the Go code panics at runtime: for capacity `≤ -2` the allocation
`make([]int, robotCapacity+1)` has a negative length, and for capacity
`= -1` the final read `dp[n][robotCapacity]` indexes out of range.  Both
panics are modelled as `RunError.panicked` (the model disregards the corner
where a cancellation poll fires before the `-1` case's final read). -/
def selectOrdersForDeliveryInt (oracle : CtxOracle) (orders : List Order)
    (robotID : String) (robotCapacity : Int) : DeliveryPlan × Option RunError :=
  if orders = [] then (⟨robotID, 0, 0, []⟩, none)
  else if robotCapacity < 0 then (zeroPlan, some .panicked)
  else selectOrdersForDeliveryCtx oracle orders robotID robotCapacity.toNat

/-- Embedding of `OrderRepository.GetShippingOrders` (`product.go` lines
375-389).  The database is modelled as the list of order rows already in
ascending `created_at` order; the query keeps the rows whose status is
`"shipping"` and scans only `order_id`, `weight` and `value` into
`model.Order`, so every other field of a fetched order carries its Go zero
value. -/
def getShippingOrders (db : List Order) : List Order :=
  (db.filter (fun o => o.shippedStatus = "shipping")).map
    (fun o => ⟨o.orderID, 0, 0, "", "", o.weight, o.value, 0, none⟩)

/-- Embedding of `OrderRepository.UpdateStatuses` (`product.go` lines
361-372): an empty id list returns success immediately with no database
statement; otherwise a single `UPDATE orders SET shipped_status = ? WHERE
order_id IN (...)` statement sets the status of every row whose id is
listed.  The second component counts the statements issued. -/
def updateStatuses (db : List Order) (orderIDs : List Int) (newStatus : String) :
    List Order × Nat :=
  if orderIDs = [] then (db, 0)
  else
    (db.map (fun o =>
      if o.orderID ∈ orderIDs then { o with shippedStatus := newStatus } else o), 1)

/-- Modelled from the spec: `Store.ExecTx` is not among the sources under
verification (only its callers are), so the Transaction Coordinator of §4.3
is taken at its contract — the body runs as one atomic, isolated unit of
work; on error every change rolls back (the database reverts to its
starting state) and on success the body's changes commit. -/
def execTx {α : Type} (db : List Order)
    (body : List Order → (List Order × α) × Option RunError) :
    (List Order × α) × Option RunError :=
  match body db with
  | ((db2, a), none) => ((db2, a), none)
  | ((_, a), some e) => ((db, a), some e)

/-- Outcome of one embedded `GenerateDeliveryPlan` request: whether the
fetch query ran, the ids committed to `delivering` (empty when no commit
was issued), the database after the transaction, and the returned value. -/
structure GenOutcome where
  fetched : Bool
  committed : List Int
  db : List Order
  result : Except RunError DeliveryPlan
  deriving DecidableEq, Repr

/-- Embedding of `GenerateDeliveryPlan` (`robot.go` lines 20-60): inside the
transaction the fetch always runs first (the capacity is never validated),
the planner runs on the fetched orders, and the commit
`UpdateStatuses(orderIDs, "delivering")` is issued only when the selection
is non-empty.  The deadline wrapper `utils.WithTimeout` (also not under
verification) only supplies the signal the planner polls, which `oracle`
models. -/
def generateDeliveryPlan (oracle : CtxOracle) (db : List Order)
    (robotID : String) (capacity : Int) : GenOutcome :=
  let step := fun (dbx : List Order) =>
    let orders := getShippingOrders dbx
    match selectOrdersForDeliveryInt oracle orders robotID capacity with
    | (_, some e) => ((dbx, (([] : List Int), zeroPlan)), some e)
    | (plan, none) =>
      if plan.orders = [] then ((dbx, (([] : List Int), plan)), none)
      else
        let orderIDs := plan.orders.map Order.orderID
        (((updateStatuses dbx orderIDs "delivering").1, (orderIDs, plan)), none)
  match execTx db step with
  | ((db2, (committed, plan)), none) => ⟨true, committed, db2, .ok plan⟩
  | ((db2, (committed, _)), some e) => ⟨true, committed, db2, .error e⟩

lemma fillGo_cases (oracle : CtxOracle) (l : List Order) :
    ∀ (t i : Nat) (prev : Nat → Nat),
      (∃ t2, fillGo oracle t i l prev = .ok (l.foldl (fun p o => dpRow o p) prev, t2)) ∨
        fillGo oracle t i l prev = .error .canceled := by
  induction l with
  | nil => exact fun t i prev => Or.inl ⟨t, rfl⟩
  | cons o rest ih =>
    intro t i prev
    rw [fillGo]
    by_cases hmod : i % 1000 = 0
    · rw [if_pos hmod]
      by_cases hc : oracle t = true
      · rw [if_pos hc]
        exact Or.inr rfl
      · rw [if_neg hc]
        exact ih (t + 1) (i + 1) (fun w => dpRow o prev w)
    · rw [if_neg hmod]
      exact ih t (i + 1) (fun w => dpRow o prev w)

lemma fillGo_noCancel {oracle : CtxOracle} (hno : ∀ t, oracle t = false) (l : List Order) :
    ∀ (t i : Nat) (prev : Nat → Nat),
      ∃ t2, fillGo oracle t i l prev = .ok (l.foldl (fun p o => dpRow o p) prev, t2) := by
  induction l with
  | nil => exact fun t i prev => ⟨t, rfl⟩
  | cons o rest ih =>
    intro t i prev
    rw [fillGo]
    by_cases hmod : i % 1000 = 0
    · rw [if_pos hmod, if_neg (by simp [hno t])]
      exact ih (t + 1) (i + 1) (fun w => dpRow o prev w)
    · rw [if_neg hmod]
      exact ih t (i + 1) (fun w => dpRow o prev w)

lemma reconGo_cases (oracle : CtxOracle) (l : List Order) :
    ∀ (t w : Nat),
      (∃ t2, reconGo oracle t l w = .ok (reconstruct l w, t2)) ∨
        reconGo oracle t l w = .error .canceled := by
  induction l with
  | nil => exact fun t w => Or.inl ⟨t, rfl⟩
  | cons o rest ih =>
    intro t w
    rw [reconGo, reconstruct]
    by_cases h0 : w = 0
    · rw [if_pos h0, if_pos h0]
      exact Or.inl ⟨t, rfl⟩
    · rw [if_neg h0, if_neg h0]
      by_cases hc : oracle t = true
      · rw [if_pos hc]
        exact Or.inr rfl
      · rw [if_neg hc]
        by_cases hsel : o.weight ≤ w ∧ dpVal rest (w - o.weight) + o.value = dpVal (o :: rest) w
        · rw [if_pos hsel, if_pos hsel]
          rcases ih (t + 1) (w - o.weight) with ⟨t2, h⟩ | h
          · rw [h]
            exact Or.inl ⟨t2, rfl⟩
          · rw [h]
            exact Or.inr rfl
        · rw [if_neg hsel, if_neg hsel]
          exact ih (t + 1) w

lemma reconGo_noCancel {oracle : CtxOracle} (hno : ∀ t, oracle t = false) (l : List Order) :
    ∀ (t w : Nat), ∃ t2, reconGo oracle t l w = .ok (reconstruct l w, t2) := by
  induction l with
  | nil => exact fun t w => ⟨t, rfl⟩
  | cons o rest ih =>
    intro t w
    rw [reconGo, reconstruct]
    by_cases h0 : w = 0
    · rw [if_pos h0, if_pos h0]
      exact ⟨t, rfl⟩
    · rw [if_neg h0, if_neg h0, if_neg (by simp [hno t])]
      by_cases hsel : o.weight ≤ w ∧ dpVal rest (w - o.weight) + o.value = dpVal (o :: rest) w
      · rw [if_pos hsel, if_pos hsel]
        rcases ih (t + 1) (w - o.weight) with ⟨t2, h⟩
        rw [h]
        exact ⟨t2, rfl⟩
      · rw [if_neg hsel, if_neg hsel]
        exact ih (t + 1) w

/-- A run of the cancellable planner either completes with the pure result
and no error, or aborts with `(model.DeliveryPlan{}, ctx.Err())`. -/
lemma selectCtx_cases (oracle : CtxOracle) (orders : List Order) (robotID : String)
    (robotCapacity : Nat) :
    selectOrdersForDeliveryCtx oracle orders robotID robotCapacity =
        (selectOrdersForDelivery orders robotID robotCapacity, none) ∨
      selectOrdersForDeliveryCtx oracle orders robotID robotCapacity =
        (zeroPlan, some RunError.canceled) := by
  by_cases h : orders = []
  · left
    rw [selectOrdersForDeliveryCtx, if_pos h, selectOrdersForDelivery, if_pos h]
  · rw [selectOrdersForDeliveryCtx, if_neg h]
    rcases fillGo_cases oracle orders 0 1 (fun _ => 0) with ⟨t, hf⟩ | hf
    · rw [hf]
      dsimp only
      rcases reconGo_cases oracle orders.reverse t robotCapacity with ⟨t2, hr⟩ | hr
      · rw [hr]
        left
        rw [selectOrdersForDelivery, if_neg h]
        rfl
      · rw [hr]
        right
        rfl
    · rw [hf]
      right
      rfl

/-- A run with no cancellation in flight completes with the pure result. -/
lemma selectCtx_noCancel {oracle : CtxOracle} (hno : ∀ t, oracle t = false)
    (orders : List Order) (robotID : String) (robotCapacity : Nat) :
    selectOrdersForDeliveryCtx oracle orders robotID robotCapacity =
      (selectOrdersForDelivery orders robotID robotCapacity, none) := by
  by_cases h : orders = []
  · rw [selectOrdersForDeliveryCtx, if_pos h, selectOrdersForDelivery, if_pos h]
  · rw [selectOrdersForDeliveryCtx, if_neg h]
    rcases fillGo_noCancel hno orders 0 1 (fun _ => 0) with ⟨t, hf⟩
    rw [hf]
    dsimp only
    rcases reconGo_noCancel hno orders.reverse t robotCapacity with ⟨t2, hr⟩
    rw [hr]
    rw [selectOrdersForDelivery, if_neg h]
    rfl

/-- C6: a cancellable planner run either completes with exactly the
uncancelled result, or aborts at a poll with `ctx.Err()` and the zero plan —
never a partial selection; and whenever the embedded `GenerateDeliveryPlan`
returns an error, no commit was issued and the database is unchanged (the
unit of work rolled back), so no order status change is committed for that
request. -/
theorem select_cancellation_safe :
    (∀ (oracle : CtxOracle) (orders : List Order) (robotID : String) (robotCapacity : Nat),
      selectOrdersForDeliveryCtx oracle orders robotID robotCapacity =
          (selectOrdersForDelivery orders robotID robotCapacity, none) ∨
        selectOrdersForDeliveryCtx oracle orders robotID robotCapacity =
          (zeroPlan, some RunError.canceled)) ∧
    (∀ (oracle : CtxOracle) (db : List Order) (robotID : String) (capacity : Int)
        (e : RunError),
      (generateDeliveryPlan oracle db robotID capacity).result = .error e →
        (generateDeliveryPlan oracle db robotID capacity).committed = [] ∧
        (generateDeliveryPlan oracle db robotID capacity).db = db) := by
  constructor
  · exact selectCtx_cases
  · intro oracle db robotID capacity e h
    rcases hsel : selectOrdersForDeliveryInt oracle (getShippingOrders db) robotID capacity
      with ⟨p, oe⟩
    rcases oe with _ | e0
    · by_cases hpl : p.orders = []
      · simp [generateDeliveryPlan, execTx, hsel, hpl] at h
      · simp [generateDeliveryPlan, execTx, hsel, hpl] at h
    · constructor <;> simp [generateDeliveryPlan, execTx, hsel]

/-- Witness for C6: a signal that has already fired when the backward loop
polls it makes the request return `ctx.Err()`, commit nothing and leave the
database unchanged. -/
theorem select_cancellation_safe_witness :
    (generateDeliveryPlan (fun _ => true) [Order.mk 1 0 0 "" "shipping" 1 1 0 none]
        "r1" 1).result = .error .canceled ∧
      (generateDeliveryPlan (fun _ => true) [Order.mk 1 0 0 "" "shipping" 1 1 0 none]
        "r1" 1).committed = [] ∧
      (generateDeliveryPlan (fun _ => true) [Order.mk 1 0 0 "" "shipping" 1 1 0 none]
        "r1" 1).db = [Order.mk 1 0 0 "" "shipping" 1 1 0 none] :=
  ⟨by decide,
    (select_cancellation_safe.2 (fun _ => true)
      [Order.mk 1 0 0 "" "shipping" 1 1 0 none] "r1" 1 .canceled (by decide)).1,
    (select_cancellation_safe.2 (fun _ => true)
      [Order.mk 1 0 0 "" "shipping" 1 1 0 none] "r1" 1 .canceled (by decide)).2⟩

/-- C9: for a fixed order list and capacity, two planner runs with no
cancellation signaled return identical results — the same `Orders` sequence,
`TotalWeight` and `TotalValue` (and no error). -/
theorem select_deterministic (o1 o2 : CtxOracle) (orders : List Order)
    (robotID : String) (robotCapacity : Nat)
    (h1 : ∀ t, o1 t = false) (h2 : ∀ t, o2 t = false) :
    selectOrdersForDeliveryCtx o1 orders robotID robotCapacity =
      selectOrdersForDeliveryCtx o2 orders robotID robotCapacity := by
  rw [selectCtx_noCancel h1 orders robotID robotCapacity,
    selectCtx_noCancel h2 orders robotID robotCapacity]

/-- Witness for C9 at a concrete input. -/
theorem select_deterministic_witness :
    (∀ t, (fun _ => false : CtxOracle) t = false) ∧
      selectOrdersForDeliveryCtx (fun _ => false)
          [Order.mk 1 0 0 "" "" 2 3 0 none, Order.mk 2 0 0 "" "" 3 4 0 none] "r1" 5 =
        selectOrdersForDeliveryCtx (fun _ => false)
          [Order.mk 1 0 0 "" "" 2 3 0 none, Order.mk 2 0 0 "" "" 3 4 0 none] "r1" 5 :=
  ⟨fun _ => rfl,
    select_deterministic (fun _ => false) (fun _ => false)
      [Order.mk 1 0 0 "" "" 2 3 0 none, Order.mk 2 0 0 "" "" 3 4 0 none] "r1" 5
      (fun _ => rfl) (fun _ => rfl)⟩

/-- C5 (evaluation at the failing input): with capacity `-1` and one
eligible order, `GenerateDeliveryPlan` performs no validation — the fetch
runs first inside the transaction, and the planner then aborts with the
runtime-panic outcome, not with the spec's ValidationError. -/
theorem generate_negative_capacity_panics :
    (generateDeliveryPlan (fun _ => false) [Order.mk 1 0 0 "" "shipping" 2 3 0 none]
        "r1" (-1)).fetched = true ∧
      (generateDeliveryPlan (fun _ => false) [Order.mk 1 0 0 "" "shipping" 2 3 0 none]
        "r1" (-1)).result = .error .panicked ∧
      ¬ ((generateDeliveryPlan (fun _ => false) [Order.mk 1 0 0 "" "shipping" 2 3 0 none]
        "r1" (-1)).result = .error .validation) := by
  exact ⟨rfl, rfl, by decide⟩

/-- C10: `UpdateStatuses` called with an empty id list returns success
without issuing any database statement, leaving every order's status
unchanged; and a `GenerateDeliveryPlan` request whose returned plan has an
empty selection issues no commit at all and leaves the database
unchanged. -/
theorem updateStatuses_empty_noop :
    (∀ (db : List Order) (newStatus : String), updateStatuses db [] newStatus = (db, 0)) ∧
    (∀ (oracle : CtxOracle) (db : List Order) (robotID : String) (capacity : Int)
        (p : DeliveryPlan),
      (generateDeliveryPlan oracle db robotID capacity).result = .ok p → p.orders = [] →
        (generateDeliveryPlan oracle db robotID capacity).committed = [] ∧
        (generateDeliveryPlan oracle db robotID capacity).db = db) := by
  constructor
  · intro db newStatus
    rw [updateStatuses, if_pos rfl]
  · intro oracle db robotID capacity p h hp
    rcases hsel : selectOrdersForDeliveryInt oracle (getShippingOrders db) robotID capacity
      with ⟨q, oe⟩
    rcases oe with _ | e0
    · by_cases hq : q.orders = []
      · constructor <;> simp [generateDeliveryPlan, execTx, hsel, hq]
      · exfalso
        simp only [generateDeliveryPlan, execTx, hsel, if_neg hq] at h
        rw [Except.ok.injEq] at h
        exact hq (h ▸ hp)
    · exfalso
      simp [generateDeliveryPlan, execTx, hsel] at h

/-- Witness for C10: a database with no shipping order yields an empty
selection, no commit and an unchanged database. -/
theorem updateStatuses_empty_noop_witness :
    updateStatuses [Order.mk 1 0 0 "" "delivering" 2 3 0 none] [] "delivering" =
        ([Order.mk 1 0 0 "" "delivering" 2 3 0 none], 0) ∧
      (generateDeliveryPlan (fun _ => false) [Order.mk 1 0 0 "" "delivering" 2 3 0 none]
          "r1" 5).committed = [] ∧
      (generateDeliveryPlan (fun _ => false) [Order.mk 1 0 0 "" "delivering" 2 3 0 none]
          "r1" 5).db = [Order.mk 1 0 0 "" "delivering" 2 3 0 none] :=
  ⟨updateStatuses_empty_noop.1 _ _,
    updateStatuses_empty_noop.2 (fun _ => false)
      [Order.mk 1 0 0 "" "delivering" 2 3 0 none] "r1" 5
      (DeliveryPlan.mk "r1" 0 0 []) (by decide) (by decide)⟩

/-! ### Serialized concurrent workloads (claim C2) -/

/-- A workload of `GenerateDeliveryPlan` requests run one after another.
The Coordinator contract of §4.3 makes each request an atomic, isolated
unit of work, so a concurrent execution of the workload is equivalent to
running the requests in some serial order; `runPlans` is that serial order.
Returns each call's committed id list together with the final database. -/
def runPlans : List (CtxOracle × String × Int) → List Order →
    List (List Int) × List Order
  | [], db => ([], db)
  | (oracle, robotID, capacity) :: rest, db =>
    let out := generateDeliveryPlan oracle db robotID capacity
    ((out.committed :: (runPlans rest out.db).1), (runPlans rest out.db).2)

/-- Ids of the orders a fetch would currently return. -/
def shippingIds (db : List Order) : List Int :=
  (db.filter (fun o => o.shippedStatus = "shipping")).map Order.orderID

/-- The returned selection's ids form a sublist of the input ids (no
hypotheses needed: the walk is an in-order selection and the output
adjustment keeps ids). -/
lemma select_orderID_sublist (orders : List Order) (robotID : String)
    (robotCapacity : Nat) :
    ((selectOrdersForDelivery orders robotID robotCapacity).orders.map
      Order.orderID).Sublist (orders.map Order.orderID) := by
  by_cases h : orders = []
  · simp [selectOrdersForDelivery, h]
  · rw [selectOrdersForDelivery, if_neg h]
    have h1 : (((reconstruct orders.reverse robotCapacity).reverse).map adjustOrder).map
        Order.orderID =
        (((reconstruct orders.reverse robotCapacity).map Order.orderID).reverse) := by
      simp [List.map_map, Function.comp_def]
    show (((reconstruct orders.reverse robotCapacity).reverse).map adjustOrder).map
        Order.orderID |>.Sublist (orders.map Order.orderID)
    rw [h1]
    have h2 : ((reconstruct orders.reverse robotCapacity).map Order.orderID).Sublist
        ((orders.map Order.orderID).reverse) := by
      have := (reconstruct_sublist orders.reverse robotCapacity).map Order.orderID
      simpa [List.map_reverse] using this
    simpa using h2.reverse

@[simp] lemma getShippingOrders_map_orderID (db : List Order) :
    (getShippingOrders db).map Order.orderID = shippingIds db := by
  simp [getShippingOrders, shippingIds, List.map_map, Function.comp_def]

/-- When the `Int`-capacity planner succeeds, the returned selection's ids
form a sublist of the fetched ids. -/
lemma selectInt_ok_sublist {oracle : CtxOracle} {orders : List Order} {robotID : String}
    {capacity : Int} {q : DeliveryPlan}
    (h : selectOrdersForDeliveryInt oracle orders robotID capacity = (q, none)) :
    (q.orders.map Order.orderID).Sublist (orders.map Order.orderID) := by
  rw [selectOrdersForDeliveryInt] at h
  by_cases hnil : orders = []
  · rw [if_pos hnil] at h
    rcases Prod.mk.injEq .. ▸ h with ⟨hq, -⟩
    rw [← hq]
    simp
  · rw [if_neg hnil] at h
    by_cases hneg : capacity < 0
    · rw [if_pos hneg] at h
      exact absurd (congrArg Prod.snd h) (by simp)
    · rw [if_neg hneg] at h
      rcases selectCtx_cases oracle orders robotID capacity.toNat with hc | hc
      · rw [hc] at h
        rcases Prod.mk.injEq .. ▸ h with ⟨hq, -⟩
        rw [← hq]
        exact select_orderID_sublist orders robotID capacity.toNat
      · rw [hc] at h
        exact absurd (congrArg Prod.snd h) (by simp)

/-- The ids a request commits form a sublist of the shipping ids of the
database it started from. -/
lemma gen_committed_sublist (oracle : CtxOracle) (db : List Order) (robotID : String)
    (capacity : Int) :
    ((generateDeliveryPlan oracle db robotID capacity).committed).Sublist
      (shippingIds db) := by
  rcases hsel : selectOrdersForDeliveryInt oracle (getShippingOrders db) robotID capacity
    with ⟨q, oe⟩
  rcases oe with _ | e0
  · by_cases hq : q.orders = []
    · simp [generateDeliveryPlan, execTx, hsel, hq]
    · have hsub := selectInt_ok_sublist hsel
      rw [getShippingOrders_map_orderID] at hsub
      simpa [generateDeliveryPlan, execTx, hsel, hq] using hsub
  · simp [generateDeliveryPlan, execTx, hsel]

@[simp] lemma updateStatuses_map_orderID (db : List Order) (ids : List Int) (st : String) :
    ((updateStatuses db ids st).1).map Order.orderID = db.map Order.orderID := by
  rw [updateStatuses]
  split
  · rfl
  · simp only [List.map_map]
    apply List.map_congr_left
    intro o _
    by_cases h : o.orderID ∈ ids <;> simp [h]

/-- A request never creates, deletes or re-identifies order rows. -/
lemma gen_map_orderID (oracle : CtxOracle) (db : List Order) (robotID : String)
    (capacity : Int) :
    ((generateDeliveryPlan oracle db robotID capacity).db).map Order.orderID =
      db.map Order.orderID := by
  rcases hsel : selectOrdersForDeliveryInt oracle (getShippingOrders db) robotID capacity
    with ⟨q, oe⟩
  rcases oe with _ | e0
  · by_cases hq : q.orders = []
    · simp [generateDeliveryPlan, execTx, hsel, hq]
    · simp [generateDeliveryPlan, execTx, hsel, hq]
  · simp [generateDeliveryPlan, execTx, hsel]

/-- An id that is still shipping after an update was shipping before and was
not among the updated ids. -/
lemma mem_shippingIds_update {db : List Order} {ids : List Int} {x : Int}
    (h : x ∈ shippingIds (updateStatuses db ids "delivering").1) :
    x ∈ shippingIds db ∧ x ∉ ids := by
  rw [updateStatuses] at h
  by_cases hids : ids = []
  · rw [if_pos hids] at h
    subst hids
    exact ⟨h, by simp⟩
  · rw [if_neg hids] at h
    simp only [shippingIds, List.mem_map, List.mem_filter] at h
    rcases h with ⟨o, ⟨ho, hst⟩, hx⟩
    rcases ho with ⟨o0, ho0, rfl⟩
    by_cases hin : o0.orderID ∈ ids
    · rw [if_pos hin] at hst
      simp only [decide_eq_true_eq] at hst
      have hst2 : ("delivering" : String) = "shipping" := hst
      exact absurd hst2 (by decide)
    · rw [if_neg hin] at hst
      rw [if_neg hin] at hx
      refine ⟨?_, hx ▸ hin⟩
      rw [shippingIds, List.mem_map]
      exact ⟨o0, List.mem_filter.mpr ⟨ho0, hst⟩, hx⟩

/-- An id that is still shipping after a request was shipping before it and
was not committed by it. -/
lemma gen_shipping_after {oracle : CtxOracle} {db : List Order} {robotID : String}
    {capacity : Int} {x : Int}
    (h : x ∈ shippingIds (generateDeliveryPlan oracle db robotID capacity).db) :
    x ∈ shippingIds db ∧ x ∉ (generateDeliveryPlan oracle db robotID capacity).committed := by
  rcases hsel : selectOrdersForDeliveryInt oracle (getShippingOrders db) robotID capacity
    with ⟨q, oe⟩
  rcases oe with _ | e0
  · by_cases hq : q.orders = []
    · simp only [generateDeliveryPlan, execTx, hsel, if_pos hq] at h ⊢
      exact ⟨h, by simp⟩
    · simp only [generateDeliveryPlan, execTx, hsel, if_neg hq] at h ⊢
      exact mem_shippingIds_update h
  · simp only [generateDeliveryPlan, execTx, hsel] at h ⊢
    exact ⟨h, by simp⟩

/-- Every id ever committed by a workload was a shipping id of the starting
database. -/
lemma runPlans_join_subset :
    ∀ (calls : List (CtxOracle × String × Int)) (db : List Order) (x : Int),
      x ∈ ((runPlans calls db).1).flatten → x ∈ shippingIds db := by
  intro calls
  induction calls with
  | nil =>
    intro db x h
    simp [runPlans] at h
  | cons c rest ih =>
    rcases c with ⟨oracle, robotID, capacity⟩
    intro db x h
    rw [runPlans] at h
    simp only [List.flatten_cons, List.mem_append] at h
    rcases h with h | h
    · exact (gen_committed_sublist oracle db robotID capacity).mem h
    · have hx := ih (generateDeliveryPlan oracle db robotID capacity).db x (by simpa using h)
      exact (gen_shipping_after hx).1

lemma shippingIds_nodup {db : List Order} (hid : (db.map Order.orderID).Nodup) :
    (shippingIds db).Nodup := by
  have hfil : (db.filter (fun o => o.shippedStatus = "shipping")).Sublist db :=
    List.filter_sublist db
  exact (hfil.map Order.orderID).nodup hid

/-- C2: under the Coordinator's isolation guarantee, no order id is
committed to `delivering` by more than one request of a workload: for a
database with unique order ids, the concatenation of all committed id lists
across the (serialized) concurrent calls contains no duplicates. -/
theorem generate_no_double_assignment (calls : List (CtxOracle × String × Int))
    (db : List Order) (hid : (db.map Order.orderID).Nodup) :
    (((runPlans calls db).1).flatten).Nodup := by
  induction calls generalizing db with
  | nil => simp [runPlans]
  | cons c rest ih =>
    rcases c with ⟨oracle, robotID, capacity⟩
    rw [runPlans]
    simp only [List.flatten_cons]
    rw [List.nodup_append]
    refine ⟨?_, ?_, ?_⟩
    · exact (gen_committed_sublist oracle db robotID capacity).nodup (shippingIds_nodup hid)
    · have hid2 : (((generateDeliveryPlan oracle db robotID capacity).db).map
          Order.orderID).Nodup := by
        rw [gen_map_orderID]
        exact hid
      simpa using ih (generateDeliveryPlan oracle db robotID capacity).db hid2
    · intro x hx hy
      have h1 : x ∈ shippingIds (generateDeliveryPlan oracle db robotID capacity).db :=
        runPlans_join_subset rest _ x (by simpa using hy)
      exact (gen_shipping_after h1).2 hx

/-- Witness for C2: two requests over a two-order database, both with
capacity 5. -/
theorem generate_no_double_assignment_witness :
    (([Order.mk 1 0 0 "" "shipping" 2 3 0 none,
        Order.mk 2 0 0 "" "shipping" 3 4 0 none].map Order.orderID).Nodup) ∧
      (((runPlans [((fun _ => false), "r1", (5 : Int)), ((fun _ => false), "r2", (5 : Int))]
        [Order.mk 1 0 0 "" "shipping" 2 3 0 none,
          Order.mk 2 0 0 "" "shipping" 3 4 0 none]).1).flatten).Nodup :=
  ⟨by decide,
    generate_no_double_assignment
      [((fun _ => false), "r1", (5 : Int)), ((fun _ => false), "r2", (5 : Int))]
      [Order.mk 1 0 0 "" "shipping" 2 3 0 none,
        Order.mk 2 0 0 "" "shipping" 3 4 0 none] (by decide)⟩

end RobotDelivery
